import Mathlib

/-
Verification of the quota/usage reconciliation logic of the
Cli-Proxy-API-Management-Center frontend.

The TypeScript sources are shallowly embedded: JavaScript primitive values
become the inductive type JSValue (finite numbers are rationals; NaN and the
infinities are separate constructors), JavaScript objects become Lean
structures, record maps become association lists, and the asynchronous
multi-URL quota probe becomes a fold over the list of per-URL outcomes.
-/

namespace CPMC

/-- JavaScript number as it reaches the modelled functions: a finite value
(modelled as a rational), NaN, or one of the infinities. -/
inductive JSNum where
  | fin (q : ℚ)
  | nan
  | posInf
  | negInf
deriving DecidableEq

/-- JavaScript primitive value: number, string, boolean, null or undefined.
An absent object property reads as undefined, so absence is modelled by
the undefV constructor as well. -/
inductive JSValue where
  | num (n : JSNum)
  | str (s : String)
  | boolV (b : Bool)
  | nullV
  | undefV
deriving DecidableEq

/-- Embedding of JavaScript String.prototype.trim: leading and trailing
whitespace characters removed (the model uses the ASCII whitespace class of
Char.isWhitespace, which covers every character the repository handles). -/
def jsTrim (s : String) : String :=
  String.mk (((s.data.dropWhile Char.isWhitespace).reverse.dropWhile Char.isWhitespace).reverse)

/-- Truth of the JavaScript nullish test (value is null or undefined). -/
def jsNullish : JSValue → Bool
  | .nullV => true
  | .undefV => true
  | _ => false

/-- JavaScript nullish coalescing operator a ?? b. -/
def jsCoalesce (a b : JSValue) : JSValue :=
  if jsNullish a then b else a

/-- Decimal digit characters of a natural number, produced with explicit
fuel; natChars supplies enough fuel for any input. Embeds the integer part
of JavaScript Number.prototype.toString. -/
def natCharsAux : ℕ → ℕ → List Char
  | 0, _ => []
  | fuel + 1, n =>
    if n < 10 then [Nat.digitChar n]
    else natCharsAux fuel (n / 10) ++ [Nat.digitChar (n % 10)]

/-- Decimal digit characters of a natural number. -/
def natChars (n : ℕ) : List Char := natCharsAux (n + 1) n

/-- Decimal digits of the fraction r / den with 0 < r < den, produced by
long division on naturals with explicit fuel (the model prints at most 20
fractional digits, enough for every value the repository handles). -/
def fracDigitChars (den : ℕ) : ℕ → ℕ → List Char
  | 0, _ => []
  | fuel + 1, r =>
    if r = 0 then []
    else Nat.digitChar (r * 10 / den) :: fracDigitChars den fuel (r * 10 % den)

/-- Embedding of JavaScript String(n) for a finite number n: optional minus
sign, decimal integer part, and a dot followed by the fractional digits when
the value is not an integer. Computed on the normalized numerator and
denominator of the rational. -/
def jsNumberToString (q : ℚ) : String :=
  let n := q.num.natAbs
  let ip := n / q.den
  let r := n % q.den
  String.mk
    ((if q.num < 0 then ['-'] else []) ++ natChars ip ++
      (if r = 0 then [] else '.' :: fracDigitChars q.den 20 r))

/-- Embedding of normalizeAuthIndexValue from AuthFilesPage.tsx: a finite
number is stringified, a string is trimmed and kept when non-empty,
everything else (NaN, infinities, booleans, null, undefined) yields null. -/
def normalizeAuthIndexValue : JSValue → Option String
  | .num (.fin q) => some (jsNumberToString q)
  | .num _ => none
  | .str s =>
    let trimmed := jsTrim s
    if trimmed = "" then none else some trimmed
  | _ => none

/-- JavaScript Math.round on a finite value: floor of q + 1/2, ties rounding
toward positive infinity. -/
def jsRound (q : ℚ) : ℤ := Rat.floor (q + 1 / 2)

/-- Embedding of remainingPercentFromUsedPercent from AuthFilesPage.tsx:
non-finite or non-number input yields null; otherwise 100 minus the used
percent is rounded with Math.round and clamped into [0, 100]. -/
def remainingPercentFromUsedPercent : JSValue → Option ℚ
  | .num (.fin q) =>
    let remaining := jsRound (100 - q)
    if remaining < 0 then some 0
    else if remaining > 100 then some 100
    else some (remaining : ℚ)
  | _ => none

/-- Embedding of the inline remainingFromUsedPercent helper of the auth-files
card renderer: nullish or non-finite input yields null, otherwise 100 minus
the used percent clamped into [0, 100] with Math.max and Math.min. -/
def remainingFromUsedPercent : Option JSNum → Option ℚ
  | none => none
  | some (.fin q) => some (max 0 (min 100 (100 - q)))
  | some _ => none

/-- Aggregate success/failure counters of one statistics bucket. -/
structure KeyStatBucket where
  success : ℕ
  failure : ℕ
deriving DecidableEq

/-- Usage statistics maps consumed by the auth-files screen: buckets keyed by
source string and buckets keyed by normalized auth index. JavaScript record
objects are modelled as association lists with first-match lookup. -/
structure KeyStats where
  bySource : List (String × KeyStatBucket)
  byAuthIndex : List (String × KeyStatBucket)
deriving DecidableEq

/-- Auth-file record as consumed by the functions modelled here. The many
provider-specific fields that none of these functions inspect are collapsed
into the single opaque field rest, so that wholesale replacement of a record
remains observable. -/
structure AuthFileItem where
  id : Option String
  name : String
  type : Option String
  auth_index : JSValue
  authIndex : JSValue
  runtime_only : JSValue
  runtimeOnly : JSValue
  rest : JSValue
deriving DecidableEq

/-- Character class of the extension regex of resolveAuthFileStats: the
extension may contain neither a slash nor a dot. -/
def isExtChar (c : Char) : Bool := !(c == '/') && !(c == '.')

/-- Embedding of the replace of the trailing-extension regex in
resolveAuthFileStats: when the name ends in a dot followed by one or more
characters that are neither dots nor slashes, that suffix is removed,
otherwise the name is returned unchanged. -/
def stripExtension (s : String) : String :=
  let rev := s.data.reverse
  let ext := rev.takeWhile isExtChar
  if ext = [] then s
  else
    match rev.drop ext.length with
    | '.' :: before => String.mk before.reverse
    | _ => s

/-- First stage of resolveAuthFileStats: when the auth index of the record
normalizes to a truthy key that is present in the byAuthIndex map, that
bucket is returned. -/
def tryAuthIndexStats (file : AuthFileItem) (stats : KeyStats) : Option KeyStatBucket :=
  match normalizeAuthIndexValue (jsCoalesce file.auth_index file.authIndex) with
  | some k => if k = "" then none else stats.byAuthIndex.lookup k
  | none => none

/-- Second stage of resolveAuthFileStats: the bySource bucket at the exact
file name, accepted only when one of its counters is nonzero. -/
def tryExactNameStats (rawFileName : String) (stats : KeyStats) : Option KeyStatBucket :=
  if rawFileName = "" then none
  else
    match stats.bySource.lookup rawFileName with
    | some fromName =>
      if fromName.success > 0 ∨ fromName.failure > 0 then some fromName else none
    | none => none

/-- Third stage of resolveAuthFileStats: the bySource bucket at the file name
with its extension stripped, accepted only when the stripped name is
non-empty, differs from the raw name, and the bucket has a nonzero counter. -/
def tryStrippedNameStats (rawFileName : String) (stats : KeyStats) : Option KeyStatBucket :=
  if rawFileName = "" then none
  else
    let nameWithoutExt := stripExtension rawFileName
    if nameWithoutExt ≠ "" ∧ nameWithoutExt ≠ rawFileName then
      match stats.bySource.lookup nameWithoutExt with
      | some b => if b.success > 0 ∨ b.failure > 0 then some b else none
      | none => none
    else none

/-- Embedding of resolveAuthFileStats from AuthFilesPage.tsx: the three
fallback stages tried in order, with the zero bucket as the default. -/
def resolveAuthFileStats (file : AuthFileItem) (stats : KeyStats) : KeyStatBucket :=
  (tryAuthIndexStats file stats <|>
    tryExactNameStats file.name stats <|>
      tryStrippedNameStats file.name stats).getD ⟨0, 0⟩

/-- Embedding of isRuntimeOnlyAuthFile from AuthFilesPage.tsx: the
runtime_only field (falling back to runtimeOnly through nullish coalescing)
marks the record when it is the boolean true or a string that trims and
lowercases to the word true. -/
def isRuntimeOnlyAuthFile (file : AuthFileItem) : Bool :=
  match jsCoalesce file.runtime_only file.runtimeOnly with
  | .boolV b => b
  | .str s => (jsTrim s).toLower == "true"
  | _ => false

/-- Client-side list update performed by handleDeleteAll when no type filter
is active: only the runtime-only records are retained. -/
def handleDeleteAllFiles (prev : List AuthFileItem) : List AuthFileItem :=
  prev.filter (fun f => isRuntimeOnlyAuthFile f)

/-- Identity under which refreshAntigravityQuota and refreshCodexQuota match
records: the trimmed id when the id field is truthy, otherwise the trimmed
name. -/
def authFileIdentity (f : AuthFileItem) : String :=
  match f.id with
  | some s => if s = "" then jsTrim f.name else jsTrim s
  | none => jsTrim f.name

/-- State update shared by refreshAntigravityQuota and refreshCodexQuota in
AuthFilesPage.tsx once the backend returns an updated record: when the
identity of the target is empty nothing happens, otherwise every list element
whose identity equals the identity of the target is replaced wholesale by the
updated record. -/
def replaceAuthFileByIdentity (prev : List AuthFileItem) (target updated : AuthFileItem) :
    List AuthFileItem :=
  let authID := authFileIdentity target
  if authID = "" then prev
  else prev.map (fun f => if authFileIdentity f = authID then updated else f)

/-- Separator class of the split regex of parseExcludedModels: newline or
comma. -/
def isExcludedSep (c : Char) : Bool := c == '\n' || c == ','

/-- Field decomposition of JavaScript String.prototype.split with the regex
matching one or more newline-or-comma characters: maximal separator runs
delimit the fields, and boundary runs contribute empty boundary fields. The
accumulator holds the current field reversed. -/
def jsFieldsAux : Bool → List Char → List Char → List (List Char)
  | _, cur, [] => [cur.reverse]
  | inSep, cur, c :: restChars =>
    if isExcludedSep c then
      if inSep then jsFieldsAux true cur restChars
      else cur.reverse :: jsFieldsAux true [] restChars
    else jsFieldsAux false (c :: cur) restChars

/-- Fields of a string under the split regex of parseExcludedModels. -/
def jsFields (s : String) : List String :=
  (jsFieldsAux false [] s.data).map (fun l => String.mk l)

/-- Embedding of parseExcludedModels from components/providers/utils.ts:
split on runs of newlines and commas, trim every field, and drop the fields
that are empty after trimming. -/
def parseExcludedModels (text : String) : List String :=
  ((jsFields text).map (fun s => jsTrim s)).filter (fun s => s != "")

/-- Embedding of JavaScript Array.prototype.join with a newline separator. -/
def joinNewline : List String → String
  | [] => ""
  | [a] => a
  | a :: rest => a ++ "\n" ++ joinNewline rest

/-- Embedding of excludedModelsToText from components/providers/utils.ts:
a present array is joined with newlines, anything else yields the empty
string. -/
def excludedModelsToText : Option (List String) → String
  | some models => joinNewline models
  | none => ""

/-- Digit accumulator for the decimal string parser of JavaScript Number:
value of a non-empty all-digit character list. -/
def digitsVal (cs : List Char) : Option ℕ :=
  if cs = [] then none
  else if cs.all Char.isDigit then
    some (cs.foldl (fun a c => a * 10 + (c.toNat - 48)) 0)
  else none

/-- Mantissa of a decimal numeric string: digits with an optional decimal
point, as in the JavaScript Number conversion of a trimmed string. -/
def parseDecMantissa (cs : List Char) : Option ℚ :=
  let ip := cs.takeWhile (fun c => !(c == '.'))
  match cs.dropWhile (fun c => !(c == '.')) with
  | [] => (digitsVal ip).map (fun n => (n : ℚ))
  | _ :: fp =>
    if fp.any (fun c => c == '.') then none
    else
      match ip, fp with
      | [], [] => none
      | [], _ => (digitsVal fp).map (fun n => (n : ℚ) / 10 ^ fp.length)
      | _, [] => (digitsVal ip).map (fun n => (n : ℚ))
      | _, _ => do
        let i ← digitsVal ip
        let f ← digitsVal fp
        pure ((i : ℚ) + (f : ℚ) / 10 ^ fp.length)

/-- Signed mantissa of a decimal numeric string. -/
def parseSignedMantissa (cs : List Char) : Option ℚ :=
  match cs with
  | '+' :: rest => parseDecMantissa rest
  | '-' :: rest => (parseDecMantissa rest).map (fun q => -q)
  | rest => parseDecMantissa rest

/-- Signed exponent of a decimal numeric string. -/
def parseExponent (cs : List Char) : Option ℤ :=
  match cs with
  | '+' :: ds => (digitsVal ds).map (fun n => (n : ℤ))
  | '-' :: ds => (digitsVal ds).map (fun n => -(n : ℤ))
  | ds => (digitsVal ds).map (fun n => (n : ℤ))

/-- Finite value of JavaScript Number on a string: the trimmed empty string
converts to zero, a decimal literal with optional sign, point and exponent
converts to its value, and anything else (including the strings that convert
to NaN or to an infinity) yields none. Hexadecimal, octal and binary string
literals are not modelled; none of the claims exercises them. -/
def jsStringToNumber (s : String) : Option ℚ :=
  let t := (jsTrim s).data
  if t = [] then some 0
  else
    let mant := t.takeWhile (fun c => !(c == 'e' || c == 'E'))
    match t.dropWhile (fun c => !(c == 'e' || c == 'E')) with
    | [] => parseSignedMantissa mant
    | _ :: ecs => do
      let m ← parseSignedMantissa mant
      let e ← parseExponent ecs
      pure (m * (10 : ℚ) ^ e)

/-- Finite value of the JavaScript Number conversion applied to a primitive,
with the Number.isFinite guard: NaN, the infinities and undefined yield
none, null converts to zero, a boolean to zero or one, and a string through
the decimal parser. -/
def jsToFiniteNumber : JSValue → Option ℚ
  | .num (.fin q) => some q
  | .num _ => none
  | .str s => jsStringToNumber s
  | .boolV b => some (if b then 1 else 0)
  | .nullV => some 0
  | .undefV => none

/-- Quota sub-object of one discovered Antigravity model entry, with every
field variant that the source reads; absent fields read as undefined. -/
structure QuotaInfoFields where
  remainingFraction : JSValue := .undefV
  remaining_fraction : JSValue := .undefV
  remaining : JSValue := .undefV
  resetTime : JSValue := .undefV
  reset_time : JSValue := .undefV
deriving DecidableEq

/-- Quota sub-object with every field undefined, the fallback object of the
nullish coalescing chain in getAntigravityQuotaInfo. -/
def emptyQuotaInfoFields : QuotaInfoFields := {}

/-- One discovered Antigravity model entry. -/
structure AntigravityQuotaInfo where
  displayName : JSValue := .undefV
  quotaInfo : Option QuotaInfoFields := none
  quota_info : Option QuotaInfoFields := none
deriving DecidableEq

/-- Discovered-models map of the Antigravity quota probe response: a
JavaScript record modelled as an association list with first-match lookup. -/
abbrev AntigravityModelsPayload := List (String × AntigravityQuotaInfo)

/-- Normalized reading of one model entry as computed by
getAntigravityQuotaInfo: the remaining fraction through the nullish
coalescing chain, Number conversion and finiteness guard; the reset time
kept only when it is a string; the display name kept only when it is a
string. -/
structure AntigravityModelInfo where
  remainingFraction : Option ℚ
  resetTime : Option String
  displayName : Option String
deriving DecidableEq

/-- Embedding of getAntigravityQuotaInfo; the argument is optional because
the source accepts an undefined entry and then reports no data. -/
def getAntigravityQuotaInfo : Option AntigravityQuotaInfo → AntigravityModelInfo
  | none => ⟨none, none, none⟩
  | some entry =>
    let qi := entry.quotaInfo.getD (entry.quota_info.getD emptyQuotaInfoFields)
    let remainingValue :=
      jsCoalesce qi.remainingFraction (jsCoalesce qi.remaining_fraction qi.remaining)
    let resetValue := jsCoalesce qi.resetTime qi.reset_time
    { remainingFraction := jsToFiniteNumber remainingValue
      resetTime := match resetValue with | .str s => some s | _ => none
      displayName := match entry.displayName with | .str s => some s | _ => none }

/-- Embedding of findAntigravityModel: direct key lookup first, then the
first entry whose display name matches the identifier case-insensitively
(a non-string display name compares as the empty string). -/
def findAntigravityModel (models : AntigravityModelsPayload) (identifier : String) :
    Option (String × AntigravityQuotaInfo) :=
  match models.lookup identifier with
  | some entry => some (identifier, entry)
  | none =>
    models.find? (fun p =>
      let name := match p.2.displayName with | .str s => s | _ => ""
      name.toLower == identifier.toLower)

/-- Catalog entry describing one fixed Antigravity quota group. -/
structure AntigravityQuotaGroupDefinition where
  id : String
  label : String
  identifiers : List String
  labelFromModel : Bool
deriving DecidableEq

/-- First catalog group: Claude/GPT. -/
def claudeGptDef : AntigravityQuotaGroupDefinition :=
  ⟨"claude-gpt", "Claude/GPT",
    ["claude-sonnet-4-5-thinking", "claude-opus-4-5-thinking",
      "claude-sonnet-4-5", "gpt-oss-120b-medium"], false⟩

/-- Second catalog group: Gemini. -/
def geminiDef : AntigravityQuotaGroupDefinition :=
  ⟨"gemini", "Gemini",
    ["gemini-3-pro-high", "gemini-3-pro-low", "gemini-2.5-flash",
      "gemini-2.5-flash-lite", "rev19-uic3-1p"], false⟩

/-- Third catalog group: Gemini 3 Flash. -/
def gemini3FlashDef : AntigravityQuotaGroupDefinition :=
  ⟨"gemini-3-flash", "Gemini 3 Flash", ["gemini-3-flash"], false⟩

/-- Fourth catalog group: the Gemini image variant, whose label is taken
from the matched model when available. -/
def geminiImageDef : AntigravityQuotaGroupDefinition :=
  ⟨"gemini-image", "gemini-3-pro-image", ["gemini-3-pro-image"], true⟩

/-- The fixed group catalog ANTIGRAVITY_QUOTA_GROUPS, in source order. -/
def ANTIGRAVITY_QUOTA_GROUPS : List AntigravityQuotaGroupDefinition :=
  [claudeGptDef, geminiDef, gemini3FlashDef, geminiImageDef]

/-- Consolidated quota group as emitted to the presentation layer. -/
structure AntigravityQuotaGroup where
  id : String
  label : String
  models : List String
  remainingFraction : ℚ
  resetTime : Option String
deriving DecidableEq

/-- Per-constituent record collected inside buildGroup for the matched
models whose remaining fraction parsed. -/
structure AntigravityQuotaEntry where
  id : String
  remainingFraction : ℚ
  resetTime : Option String
  displayName : Option String
deriving DecidableEq

/-- JavaScript Array.prototype.find with the Boolean predicate over a list
of optional strings: the first value that is present and non-empty. -/
def findFirstTruthy (l : List (Option String)) : Option String :=
  l.findSome? (fun o =>
    match o with
    | some s => if s = "" then none else some s
    | none => none)

/-- Matched constituents of one catalog group whose remaining fraction
parsed, in catalog identifier order, as collected by buildGroup. -/
def groupQuotaEntries (models : AntigravityModelsPayload)
    (d : AntigravityQuotaGroupDefinition) : List AntigravityQuotaEntry :=
  (d.identifiers.filterMap (fun identifier => findAntigravityModel models identifier)).filterMap
    (fun p =>
      let info := getAntigravityQuotaInfo (some p.2)
      match info.remainingFraction with
      | some q => some ⟨p.1, q, info.resetTime, info.displayName⟩
      | none => none)

/-- Embedding of the buildGroup closure of buildAntigravityQuotaGroups: when
no constituent has a parseable remaining fraction the group is omitted;
otherwise the remaining fraction is the minimum across constituents, the
reset time is the override when given and otherwise the first truthy
constituent reset time, and the label comes from the first truthy display
name when the catalog entry requests it. -/
def buildGroup (models : AntigravityModelsPayload) (d : AntigravityQuotaGroupDefinition)
    (overrideResetTime : Option String) : Option AntigravityQuotaGroup :=
  match groupQuotaEntries models d with
  | [] => none
  | e :: es =>
    let remainingFraction := es.foldl (fun a x => min a x.remainingFraction) e.remainingFraction
    let resetTime := overrideResetTime <|> findFirstTruthy ((e :: es).map (fun x => x.resetTime))
    let displayName := findFirstTruthy ((e :: es).map (fun x => x.displayName))
    let label :=
      match displayName with
      | some dn => if d.labelFromModel then dn else d.label
      | none => d.label
    some ⟨d.id, label, (e :: es).map (fun x => x.id), remainingFraction, resetTime⟩

/-- Embedding of buildAntigravityQuotaGroups: the four catalog groups are
built and pushed in order, and the image group receives the reset time of
the emitted Gemini group as its override. -/
def buildAntigravityQuotaGroups (models : AntigravityModelsPayload) :
    List AntigravityQuotaGroup :=
  let claudeGroup := buildGroup models claudeGptDef none
  let geminiGroup := buildGroup models geminiDef none
  let flashGroup := buildGroup models gemini3FlashDef none
  let geminiResetTime := geminiGroup.bind (fun g => g.resetTime)
  let imageGroup := buildGroup models geminiImageDef geminiResetTime
  claudeGroup.toList ++ geminiGroup.toList ++ flashGroup.toList ++ imageGroup.toList

/-- Remaining fractions of the matching constituents of one catalog group:
the parseable remaining fractions of the model entries matched by the group
identifiers, in catalog order. -/
def groupFractions (models : AntigravityModelsPayload)
    (d : AntigravityQuotaGroupDefinition) : List ℚ :=
  (groupQuotaEntries models d).map (fun e => e.remainingFraction)

/-- First truthy reset time among the matching constituents of one catalog
group, the reset time a group carries when no override applies. -/
def groupOwnResetTime (models : AntigravityModelsPayload)
    (d : AntigravityQuotaGroupDefinition) : Option String :=
  findFirstTruthy ((groupQuotaEntries models d).map (fun e => e.resetTime))

/-- Result of one resolved probe request against a candidate URL. The body
is modelled after the JSON parsing stage of the source: models holds the
discovered-models map when parseAntigravityPayload produced an object whose
models field is a non-array object, and none otherwise (unparseable or empty
body, missing or malformed models field). The errorMessage field carries the
string that the external getApiCallErrorMessage collaborator would produce
for the non-2xx case. -/
structure ApiCallResult where
  statusCode : ℤ
  models : Option AntigravityModelsPayload
  errorMessage : String
deriving DecidableEq

/-- Outcome of one probe attempt: either the request threw (msg carries the
message that the catch block derives from the thrown value) or it resolved
with a result. -/
inductive ApiOutcome where
  | thrown (msg : String)
  | result (r : ApiCallResult)
deriving DecidableEq

/-- Truth of the 2xx test of fetchAntigravityQuota on one outcome. -/
def isHttp2xx : ApiOutcome → Bool
  | .thrown _ => false
  | .result r => decide (200 ≤ r.statusCode) && decide (r.statusCode < 300)

/-- Usable groups of one outcome: present exactly when the outcome is a 2xx
response whose models map parsed and consolidated into a non-empty group
list. -/
def outcomeGroups : ApiOutcome → Option (List AntigravityQuotaGroup)
  | .thrown _ => none
  | .result r =>
    if r.statusCode < 200 ∨ 300 ≤ r.statusCode then none
    else
      match r.models with
      | none => none
      | some m =>
        let gs := buildAntigravityQuotaGroups m
        if gs = [] then none else some gs

/-- Loop of fetchAntigravityQuota over the remaining candidate URLs,
threading the lastError string and the hadSuccess flag of the source. -/
def fetchGo : List ApiOutcome → String → Bool → Except String (List AntigravityQuotaGroup)
  | [], lastError, hadSuccess =>
    if hadSuccess then .ok []
    else .error (if lastError = "" then "common.unknown_error" else lastError)
  | .thrown msg :: restOutcomes, _, hadSuccess => fetchGo restOutcomes msg hadSuccess
  | .result r :: restOutcomes, _, hadSuccess =>
    if r.statusCode < 200 ∨ 300 ≤ r.statusCode then
      fetchGo restOutcomes r.errorMessage hadSuccess
    else
      match r.models with
      | none => fetchGo restOutcomes "antigravity_quota.empty_models" true
      | some m =>
        let groups := buildAntigravityQuotaGroups m
        if groups = [] then fetchGo restOutcomes "antigravity_quota.empty_models" true
        else .ok groups

/-- Embedding of fetchAntigravityQuota: the candidate URLs are tried in
sequence, each URL contributing one outcome; i18n messages are modelled by
their translation keys. A returned .error models the throw at the end of the
source function. -/
def fetchAntigravityQuota (outcomes : List ApiOutcome) :
    Except String (List AntigravityQuotaGroup) :=
  fetchGo outcomes "" false

/-- Fixture: the auth-file record of the fallback-order example of the spec,
carrying auth index 3 and the name file.json. -/
def sampleIndexedFile : AuthFileItem :=
  ⟨none, "file.json", none, .num (.fin 3), .undefV, .undefV, .undefV, .undefV⟩

/-- Fixture: the same record without any auth index. -/
def sampleUnindexedFile : AuthFileItem :=
  ⟨none, "file.json", none, .undefV, .undefV, .undefV, .undefV, .undefV⟩

/-- Fixture: the statistics maps of the fallback-order example of the spec. -/
def sampleStats : KeyStats :=
  ⟨[("file.json", ⟨0, 0⟩), ("file", ⟨5, 1⟩)], [("3", ⟨2, 0⟩)]⟩

/-- Fixture: discovered-models map of the group-consolidation example, with
two Claude/GPT constituents at remaining fractions 4/5 and 3/10. -/
def sampleClaudeModels : AntigravityModelsPayload :=
  [("claude-sonnet-4-5", { quotaInfo := some { remainingFraction := .num (.fin (mkRat 4 5)) } }),
   ("gpt-oss-120b-medium", { quotaInfo := some { remainingFraction := .num (.fin (mkRat 3 10)) } })]

/-- Fixture: discovered-models map in which the Gemini group carries reset
time A and the image group constituent carries its own reset time B. -/
def sampleImageResetModels : AntigravityModelsPayload :=
  [("gemini-3-pro-high",
     { quotaInfo := some { remainingFraction := .num (.fin (mkRat 1 2)),
                           resetTime := .str "resetA" } }),
   ("gemini-3-pro-image",
     { quotaInfo := some { remainingFraction := .num (.fin (mkRat 2 5)),
                           resetTime := .str "resetB" } })]

/-- Fixture: discovered-models map holding only a Gemini 3 Flash entry. -/
def sampleFlashModels : AntigravityModelsPayload :=
  [("gemini-3-flash",
     { quotaInfo := some { remainingFraction := .num (.fin (mkRat 1 4)),
                           resetTime := .str "resetF" } })]

/-- Fixture: probe outcomes with a thrown request, a non-2xx response and a
2xx response with a usable models map. -/
def sampleOutcomes : List ApiOutcome :=
  [.thrown "boom", .result ⟨404, none, "HTTP 404"⟩, .result ⟨200, some sampleFlashModels, ""⟩]

/-- Fixture: one auth-file record with identity a. -/
def sampleItemA : AuthFileItem :=
  ⟨some "a", "a.json", none, .undefV, .undefV, .undefV, .undefV, .str "payloadA"⟩

/-- Fixture: one auth-file record with identity b. -/
def sampleItemB : AuthFileItem :=
  ⟨some "b", "b.json", none, .undefV, .undefV, .undefV, .undefV, .str "payloadB"⟩

/-- Fixture: the refreshed replacement record, also with identity b. -/
def sampleItemB2 : AuthFileItem :=
  ⟨some "b", "b.json", none, .undefV, .undefV, .undefV, .undefV, .str "payloadB-refreshed"⟩

/-
Helper lemmas.
-/

theorem natCharsAux_ne_nil (fuel n : ℕ) : natCharsAux (fuel + 1) n ≠ [] := by
  unfold natCharsAux
  split <;> simp

theorem natChars_ne_nil (n : ℕ) : natChars n ≠ [] := natCharsAux_ne_nil n n

theorem jsNumberToString_ne_empty (q : ℚ) : jsNumberToString q ≠ "" := by
  intro h
  have hd : ((if q.num < 0 then ['-'] else []) ++ natChars (q.num.natAbs / q.den) ++
      (if q.num.natAbs % q.den = 0 then []
        else '.' :: fracDigitChars q.den 20 (q.num.natAbs % q.den))) = [] :=
    congrArg String.data h
  simp only [List.append_eq_nil] at hd
  exact natChars_ne_nil _ hd.1.2

theorem normalizeAuthIndexValue_ne_empty (v : JSValue) (k : String)
    (h : normalizeAuthIndexValue v = some k) : k ≠ "" := by
  cases v with
  | num n =>
    cases n with
    | fin q =>
      simp only [normalizeAuthIndexValue, Option.some.injEq] at h
      exact h ▸ jsNumberToString_ne_empty q
    | nan => simp [normalizeAuthIndexValue] at h
    | posInf => simp [normalizeAuthIndexValue] at h
    | negInf => simp [normalizeAuthIndexValue] at h
  | str s =>
    simp only [normalizeAuthIndexValue] at h
    split at h
    · exact absurd h (by simp)
    · next hcond =>
      rw [Option.some.injEq] at h
      exact h ▸ hcond
  | boolV b => simp [normalizeAuthIndexValue] at h
  | nullV => simp [normalizeAuthIndexValue] at h
  | undefV => simp [normalizeAuthIndexValue] at h

theorem jsRound_eq_floor (q : ℚ) : jsRound q = ⌊q + 1 / 2⌋ := rfl

/-
Claim C7.
-/

/-- C7: normalizeAuthIndexValue stringifies every finite number, returns the
trim of every string whose trim is non-empty, and yields null on null,
undefined, NaN, the empty string and all-whitespace strings (strings whose
trim is empty); the final conjuncts ground the decimal-string reading of the
number case on concrete values. -/
theorem normalizeAuthIndexValue_spec :
    (∀ q : ℚ, normalizeAuthIndexValue (.num (.fin q)) = some (jsNumberToString q)) ∧
    (∀ s : String, jsTrim s ≠ "" → normalizeAuthIndexValue (.str s) = some (jsTrim s)) ∧
    (∀ s : String, jsTrim s = "" → normalizeAuthIndexValue (.str s) = none) ∧
    normalizeAuthIndexValue .nullV = none ∧
    normalizeAuthIndexValue .undefV = none ∧
    normalizeAuthIndexValue (.num .nan) = none ∧
    jsNumberToString 3 = "3" ∧ jsNumberToString (-5 / 2) = "-2.5" := by
  refine ⟨fun q => rfl, ?_, ?_, rfl, rfl, rfl, by with_unfolding_all rfl,
    by with_unfolding_all rfl⟩
  · intro s hs
    simp [normalizeAuthIndexValue, hs]
  · intro s hs
    simp [normalizeAuthIndexValue, hs]

/-- C7 witness: the spec clauses applied at concrete inputs. -/
theorem normalizeAuthIndexValue_spec_witness :
    normalizeAuthIndexValue (.str "  a ") = some "a" ∧
    normalizeAuthIndexValue (.str "   ") = none := by
  constructor
  · have h := normalizeAuthIndexValue_spec.2.1 "  a " (by decide)
    rw [show jsTrim "  a " = "a" from by decide] at h
    exact h
  · exact normalizeAuthIndexValue_spec.2.2.1 "   " (by decide)

/-
Claim C6.
-/

/-- C6 counterexample: at the finite used percent 1/2 the function
remainingPercentFromUsedPercent of AuthFilesPage.tsx returns 100, while the
clamp of 100 - 1/2 into [0, 100] is 199/2; rounding happens before
clamping, so the claimed identity fails at this input. -/
theorem remainingPercent_rounding_counterexample :
    remainingPercentFromUsedPercent (.num (.fin (1 / 2))) = some 100 ∧
    max 0 (min 100 (100 - (1 / 2 : ℚ))) = 199 / 2 ∧
    (100 : ℚ) ≠ 199 / 2 := by
  refine ⟨by with_unfolding_all rfl, ?_, by norm_num⟩
  rw [max_def, min_def]
  norm_num

/-- C6 amended: the inline remainingFromUsedPercent helper satisfies the
clamp identity exactly for every finite input and yields null on nullish and
non-finite input; remainingPercentFromUsedPercent rounds 100 minus the used
percent to the nearest integer before clamping, which agrees with the clamp
identity at every integer used percent (in particular 27 maps to 73 in
both), and also yields null on non-number and non-finite input. -/
theorem remainingPercent_conversion_amended :
    (∀ q : ℚ, remainingFromUsedPercent (some (.fin q)) = some (max 0 (min 100 (100 - q)))) ∧
    remainingFromUsedPercent none = none ∧
    remainingFromUsedPercent (some .nan) = none ∧
    remainingFromUsedPercent (some .posInf) = none ∧
    remainingFromUsedPercent (some .negInf) = none ∧
    (∀ n : ℤ, remainingPercentFromUsedPercent (.num (.fin (n : ℚ))) =
      some ((max 0 (min 100 (100 - n)) : ℤ) : ℚ)) ∧
    remainingPercentFromUsedPercent (.num .nan) = none ∧
    remainingPercentFromUsedPercent .nullV = none ∧
    remainingPercentFromUsedPercent .undefV = none ∧
    remainingFromUsedPercent (some (.fin 27)) = some 73 ∧
    remainingPercentFromUsedPercent (.num (.fin 27)) = some 73 := by
  refine ⟨fun q => rfl, rfl, rfl, rfl, rfl, ?_, rfl, rfl, rfl,
    by with_unfolding_all rfl, by with_unfolding_all rfl⟩
  intro n
  have hfloor : jsRound (100 - (n : ℚ)) = 100 - n := by
    have hcast : (100 : ℚ) - (n : ℚ) + 1 / 2 = ((100 - n : ℤ) : ℚ) + 1 / 2 := by
      push_cast
      ring
    rw [jsRound_eq_floor, hcast, Int.floor_int_add]
    have : ⌊(1 / 2 : ℚ)⌋ = 0 := by
      rw [Int.floor_eq_zero_iff]
      constructor <;> norm_num
    omega
  simp only [remainingPercentFromUsedPercent]
  rw [hfloor]
  split_ifs with h1 h2
  · have : (0 : ℤ) = max 0 (min 100 (100 - n)) := by omega
    rw [Option.some.injEq]
    exact_mod_cast this
  · have : (100 : ℤ) = max 0 (min 100 (100 - n)) := by omega
    rw [Option.some.injEq]
    exact_mod_cast this
  · have : (100 - n : ℤ) = max 0 (min 100 (100 - n)) := by omega
    rw [Option.some.injEq]
    exact_mod_cast this

/-
Claim C1.
-/

/-- C1: whenever the auth index of the record normalizes to a key present in
the byAuthIndex map, resolveAuthFileStats returns that bucket, for every
statistics value, hence regardless of the bySource buckets stored under the
file name or its extension-stripped name. -/
theorem resolveAuthFileStats_authIndex_priority
    (file : AuthFileItem) (stats : KeyStats) (k : String) (b : KeyStatBucket)
    (hk : normalizeAuthIndexValue (jsCoalesce file.auth_index file.authIndex) = some k)
    (hb : stats.byAuthIndex.lookup k = some b) :
    resolveAuthFileStats file stats = b := by
  have hne : k ≠ "" := normalizeAuthIndexValue_ne_empty _ _ hk
  unfold resolveAuthFileStats tryAuthIndexStats
  rw [hk]
  simp [hne, hb]

/-- C1 witness: the fallback-order example of the spec; the auth-index
bucket with two successes wins over both bySource buckets. -/
theorem resolveAuthFileStats_authIndex_priority_witness :
    resolveAuthFileStats sampleIndexedFile sampleStats = ⟨2, 0⟩ :=
  resolveAuthFileStats_authIndex_priority sampleIndexedFile sampleStats "3" ⟨2, 0⟩
    (by decide) (by decide)

/-
Claim C2.
-/

/-- C2: with no usable auth index, a bySource bucket present at the exact
file name but carrying zero counters is skipped, and the populated bucket at
the extension-stripped name is returned. -/
theorem resolveAuthFileStats_stripped_fallback
    (file : AuthFileItem) (stats : KeyStats) (b0 b1 : KeyStatBucket)
    (hidx : ∀ k, normalizeAuthIndexValue (jsCoalesce file.auth_index file.authIndex) = some k →
      stats.byAuthIndex.lookup k = none)
    (hname : file.name ≠ "")
    (hexact : stats.bySource.lookup file.name = some b0)
    (hzero : b0.success = 0 ∧ b0.failure = 0)
    (hstrip1 : stripExtension file.name ≠ "")
    (hstrip2 : stripExtension file.name ≠ file.name)
    (hsb : stats.bySource.lookup (stripExtension file.name) = some b1)
    (hnz : 0 < b1.success + b1.failure) :
    resolveAuthFileStats file stats = b1 := by
  have h1 : tryAuthIndexStats file stats = none := by
    unfold tryAuthIndexStats
    cases hn : normalizeAuthIndexValue (jsCoalesce file.auth_index file.authIndex) with
    | none => rfl
    | some k =>
      rcases eq_or_ne k "" with hk | hk
      · simp [hk]
      · simp [hk, hidx k hn]
  have h2 : tryExactNameStats file.name stats = none := by
    unfold tryExactNameStats
    simp [hname, hexact, hzero.1, hzero.2]
  have h3 : tryStrippedNameStats file.name stats = some b1 := by
    have hor : b1.success > 0 ∨ b1.failure > 0 := by omega
    unfold tryStrippedNameStats
    simp [hname, hstrip1, hstrip2, hsb, hor]
  unfold resolveAuthFileStats
  rw [h1, h2, h3]
  rfl

/-- C2 witness: the extension-stripped example of the spec; the empty exact
bucket is skipped and the populated stripped bucket is returned. -/
theorem resolveAuthFileStats_stripped_fallback_witness :
    resolveAuthFileStats sampleUnindexedFile sampleStats = ⟨5, 1⟩ :=
  resolveAuthFileStats_stripped_fallback sampleUnindexedFile sampleStats ⟨0, 0⟩ ⟨5, 1⟩
    (fun k hk => by simp [sampleUnindexedFile, normalizeAuthIndexValue, jsCoalesce, jsNullish] at hk)
    (by decide) (by decide) (by decide) (by decide) (by decide) (by decide) (by decide)

/-
Claim C10.
-/

theorem isRuntimeOnlyAuthFile_iff (f : AuthFileItem) :
    isRuntimeOnlyAuthFile f = true ↔
      (jsCoalesce f.runtime_only f.runtimeOnly = .boolV true ∨
        ∃ s, jsCoalesce f.runtime_only f.runtimeOnly = .str s ∧
          (jsTrim s).toLower = "true") := by
  unfold isRuntimeOnlyAuthFile
  cases h : jsCoalesce f.runtime_only f.runtimeOnly <;> simp [h]

/-- C10: after the unfiltered delete-all action succeeds, the retained list
holds a record exactly when it was in the previous list and is classified
runtime-only: its runtime_only field, falling back to runtimeOnly, is the
boolean true or a string that trims and lowercases to the word true; every
other record is removed. -/
theorem handleDeleteAll_keeps_exactly_runtime_only
    (prev : List AuthFileItem) (f : AuthFileItem) :
    f ∈ handleDeleteAllFiles prev ↔
      f ∈ prev ∧
        (jsCoalesce f.runtime_only f.runtimeOnly = .boolV true ∨
          ∃ s, jsCoalesce f.runtime_only f.runtimeOnly = .str s ∧
            (jsTrim s).toLower = "true") := by
  unfold handleDeleteAllFiles
  rw [List.mem_filter]
  exact and_congr_right fun _ => isRuntimeOnlyAuthFile_iff f

/-
Claim C9.
-/

/-- C9: when the refresh target has a non-empty identity, the list update of
refreshAntigravityQuota and refreshCodexQuota replaces, wholesale, exactly
the positions whose record identity matches the target identity with the
returned record, and leaves every other position unchanged; the length of
the list is preserved. -/
theorem replaceAuthFileByIdentity_frame
    (prev : List AuthFileItem) (target updated : AuthFileItem)
    (hID : authFileIdentity target ≠ "") :
    (replaceAuthFileByIdentity prev target updated).length = prev.length ∧
    ∀ (i : ℕ) (f : AuthFileItem), prev[i]? = some f →
      ((authFileIdentity f = authFileIdentity target →
          (replaceAuthFileByIdentity prev target updated)[i]? = some updated) ∧
        (authFileIdentity f ≠ authFileIdentity target →
          (replaceAuthFileByIdentity prev target updated)[i]? = some f)) := by
  constructor
  · simp [replaceAuthFileByIdentity, hID]
  · intro i f hf
    constructor
    · intro heq
      simp [replaceAuthFileByIdentity, hID, List.getElem?_map, hf, heq]
    · intro hne
      simp [replaceAuthFileByIdentity, hID, List.getElem?_map, hf, hne]

/-- C9 witness: replacing the record with identity b leaves the record with
identity a untouched at position zero and replaces position one wholesale. -/
theorem replaceAuthFileByIdentity_frame_witness :
    (replaceAuthFileByIdentity [sampleItemA, sampleItemB] sampleItemB sampleItemB2)[0]? =
      some sampleItemA ∧
    (replaceAuthFileByIdentity [sampleItemA, sampleItemB] sampleItemB sampleItemB2)[1]? =
      some sampleItemB2 := by
  have h := replaceAuthFileByIdentity_frame [sampleItemA, sampleItemB] sampleItemB sampleItemB2
    (by decide)
  exact ⟨(h.2 0 sampleItemA (by decide)).2 (by decide), (h.2 1 sampleItemB (by decide)).1 rfl⟩

/-
Claim C8.
-/

theorem jsFieldsAux_sepFree (a : List Char) :
    ∀ (cur rest : List Char), (∀ c ∈ a, isExcludedSep c = false) →
      jsFieldsAux false cur (a ++ rest) = jsFieldsAux false (a.reverse ++ cur) rest := by
  induction a with
  | nil => intro cur rest _; simp
  | cons c a ih =>
    intro cur rest h
    have hc : isExcludedSep c = false := h c (by simp)
    simp only [List.cons_append, jsFieldsAux, hc, Bool.false_eq_true, if_false, List.append_eq]
    rw [ih (c :: cur) rest (fun x hx => h x (by simp [hx]))]
    simp [List.reverse_cons, List.append_assoc]

theorem jsFieldsAux_sep_step (cur : List Char) (c : Char) (rest : List Char)
    (hc : isExcludedSep c = true) :
    jsFieldsAux false cur (c :: rest) = cur.reverse :: jsFieldsAux true [] rest := by
  simp only [jsFieldsAux, hc]
  rfl

theorem jsFieldsAux_true_eq_false (l : List Char)
    (h : ∀ c, l.head? = some c → isExcludedSep c = false) :
    jsFieldsAux true [] l = jsFieldsAux false [] l := by
  cases l with
  | nil => rfl
  | cons c rest =>
    have hc := h c rfl
    simp [jsFieldsAux, hc]

theorem joinNewline_cons_data (y : String) (t : List String) :
    ∃ r, (joinNewline (y :: t)).data = y.data ++ r := by
  cases t with
  | nil => exact ⟨[], by simp [joinNewline]⟩
  | cons z t2 =>
    refine ⟨'\n' :: (joinNewline (z :: t2)).data, ?_⟩
    show (y ++ "\n" ++ joinNewline (z :: t2)).data = _
    simp [String.data_append]

theorem jsFieldsAux_join (l : List String) (hl : l ≠ [])
    (h : ∀ s ∈ l, s.data ≠ [] ∧ ∀ c ∈ s.data, isExcludedSep c = false) :
    jsFieldsAux false [] (joinNewline l).data = l.map String.data := by
  induction l with
  | nil => exact absurd rfl hl
  | cons x t ih =>
    cases t with
    | nil =>
      have hx := h x (by simp)
      show jsFieldsAux false [] x.data = [x.data]
      calc jsFieldsAux false [] x.data
          = jsFieldsAux false [] (x.data ++ []) := by rw [List.append_nil]
        _ = jsFieldsAux false (x.data.reverse ++ []) [] := jsFieldsAux_sepFree _ _ _ hx.2
        _ = [x.data] := by simp [jsFieldsAux]
    | cons y t2 =>
      have hx := h x (by simp)
      have hy := h y (by simp)
      obtain ⟨r, hr⟩ := joinNewline_cons_data y t2
      have hjoin : (joinNewline (x :: y :: t2)).data
          = x.data ++ '\n' :: (joinNewline (y :: t2)).data := by
        show (x ++ "\n" ++ joinNewline (y :: t2)).data = _
        simp [String.data_append]
      have hhead : ∀ c, ((joinNewline (y :: t2)).data).head? = some c →
          isExcludedSep c = false := by
        intro c hc
        rw [hr] at hc
        cases hyd : y.data with
        | nil => exact absurd hyd hy.1
        | cons c0 cs =>
          rw [hyd] at hc
          simp only [List.cons_append, List.head?_cons, Option.some.injEq] at hc
          exact hc ▸ hy.2 c0 (by simp [hyd])
      rw [hjoin, jsFieldsAux_sepFree x.data [] _ hx.2,
        jsFieldsAux_sep_step _ _ _ (by decide),
        jsFieldsAux_true_eq_false _ hhead,
        ih (by simp) (fun s hs => h s (by simp [hs]))]
      simp

/-- C8 counterexample: the round trip drops the all-whitespace element, so
the output is not the original list with each element trimmed. -/
theorem excluded_models_roundtrip_counterexample :
    parseExcludedModels (excludedModelsToText (some ["gpt-4", " "])) = ["gpt-4"] ∧
    ["gpt-4", " "].map jsTrim = ["gpt-4", ""] ∧
    (["gpt-4"] : List String) ≠ ["gpt-4", ""] :=
  ⟨by decide, by decide, by decide⟩

/-- C8 amended: for every list of model names without embedded newlines or
commas whose elements are all non-empty after trimming, excludedModelsToText
followed by parseExcludedModels reproduces the list element for element with
each element trimmed; elements that trim to the empty string are dropped by
the parse filter, as the counterexample shows. -/
theorem excluded_models_roundtrip_amended (l : List String)
    (h : ∀ s ∈ l, (∀ c ∈ s.data, isExcludedSep c = false) ∧ jsTrim s ≠ "") :
    parseExcludedModels (excludedModelsToText (some l)) = l.map jsTrim := by
  cases l with
  | nil => rfl
  | cons x t =>
    have hdat : ∀ s ∈ x :: t, s.data ≠ [] ∧ ∀ c ∈ s.data, isExcludedSep c = false := by
      intro s hs
      refine ⟨?_, (h s hs).1⟩
      intro hd
      have hs0 : s = "" := by
        cases s with
        | mk d =>
          have hd2 : d = [] := hd
          rw [hd2]
      exact (h s hs).2 (by rw [hs0]; rfl)
    have hmk : ∀ s : String, String.mk s.data = s := fun s => by cases s; rfl
    have hmaps : ∀ ls : List String,
        List.map (fun d => String.mk d) (List.map String.data ls) = ls := by
      intro ls
      induction ls with
      | nil => rfl
      | cons a as ihh =>
        simp only [List.map_cons, ihh]
    unfold parseExcludedModels excludedModelsToText jsFields
    rw [jsFieldsAux_join (x :: t) (by simp) hdat, hmaps (x :: t)]
    rw [List.filter_eq_self.mpr]
    intro a ha
    rw [List.mem_map] at ha
    obtain ⟨s, hs, rfl⟩ := ha
    simpa using (h s hs).2

/-- C8 witness: the amended round trip applied at a concrete list with
leading and trailing spaces. -/
theorem excluded_models_roundtrip_amended_witness :
    parseExcludedModels (excludedModelsToText (some ["alpha", " beta "])) = ["alpha", "beta"] := by
  have h := excluded_models_roundtrip_amended ["alpha", " beta "] (by decide)
  rw [show (["alpha", " beta "].map jsTrim) = ["alpha", "beta"] from by decide] at h
  exact h

/-
Claims C3 and C4: lemmas about buildGroup and the output list.
-/

theorem buildGroup_eq_none_iff (models : AntigravityModelsPayload)
    (d : AntigravityQuotaGroupDefinition) (o : Option String) :
    buildGroup models d o = none ↔ groupQuotaEntries models d = [] := by
  unfold buildGroup
  cases h : groupQuotaEntries models d <;> simp

theorem buildGroup_id (models : AntigravityModelsPayload)
    (d : AntigravityQuotaGroupDefinition) (o : Option String) (g : AntigravityQuotaGroup)
    (hg : buildGroup models d o = some g) : g.id = d.id := by
  unfold buildGroup at hg
  cases h : groupQuotaEntries models d with
  | nil => rw [h] at hg; exact absurd hg (by simp)
  | cons e es =>
    rw [h, Option.some.injEq] at hg
    subst hg
    rfl

theorem buildGroup_resetTime (models : AntigravityModelsPayload)
    (d : AntigravityQuotaGroupDefinition) (o : Option String) (g : AntigravityQuotaGroup)
    (hg : buildGroup models d o = some g) :
    g.resetTime = (o <|> groupOwnResetTime models d) := by
  unfold buildGroup at hg
  cases h : groupQuotaEntries models d with
  | nil => rw [h] at hg; exact absurd hg (by simp)
  | cons e es =>
    rw [h, Option.some.injEq] at hg
    subst hg
    unfold groupOwnResetTime
    rw [h]

theorem foldl_min_mem_le (qs : List ℚ) :
    ∀ a : ℚ, (qs.foldl min a = a ∨ qs.foldl min a ∈ qs) ∧
      qs.foldl min a ≤ a ∧ ∀ q ∈ qs, qs.foldl min a ≤ q := by
  induction qs with
  | nil => intro a; exact ⟨Or.inl rfl, le_refl a, by simp⟩
  | cons q qs ih =>
    intro a
    have h := ih (min a q)
    have hfold : (q :: qs).foldl min a = qs.foldl min (min a q) := rfl
    refine ⟨?_, ?_, ?_⟩
    · rcases h.1 with h1 | h1
      · rcases min_choice a q with hm | hm
        · exact Or.inl (by rw [hfold, h1, hm])
        · exact Or.inr (by rw [hfold, h1, hm]; simp)
      · exact Or.inr (by rw [hfold]; simp [h1])
    · calc (q :: qs).foldl min a = qs.foldl min (min a q) := hfold
        _ ≤ min a q := h.2.1
        _ ≤ a := min_le_left a q
    · intro x hx
      rcases List.mem_cons.mp hx with rfl | hx
      · calc (x :: qs).foldl min a = qs.foldl min (min a x) := rfl
          _ ≤ min a x := h.2.1
          _ ≤ x := min_le_right a x
      · exact h.2.2 x hx

theorem buildGroup_min (models : AntigravityModelsPayload)
    (d : AntigravityQuotaGroupDefinition) (o : Option String) (g : AntigravityQuotaGroup)
    (hg : buildGroup models d o = some g) :
    g.remainingFraction ∈ groupFractions models d ∧
      ∀ q ∈ groupFractions models d, g.remainingFraction ≤ q := by
  unfold buildGroup at hg
  cases h : groupQuotaEntries models d with
  | nil => rw [h] at hg; exact absurd hg (by simp)
  | cons e es =>
    rw [h, Option.some.injEq] at hg
    subst hg
    unfold groupFractions
    rw [h]
    have hfold : es.foldl (fun a x => min a x.remainingFraction) e.remainingFraction
        = (es.map (fun x => x.remainingFraction)).foldl min e.remainingFraction := by
      rw [List.foldl_map]
    have hspec := foldl_min_mem_le (es.map (fun x => x.remainingFraction)) e.remainingFraction
    constructor
    · show es.foldl (fun a x => min a x.remainingFraction) e.remainingFraction
        ∈ (e :: es).map (fun x => x.remainingFraction)
      rw [hfold, List.map_cons, List.mem_cons]
      exact hspec.1
    · intro q hq
      rw [List.map_cons, List.mem_cons] at hq
      show es.foldl (fun a x => min a x.remainingFraction) e.remainingFraction ≤ q
      rw [hfold]
      rcases hq with rfl | hq
      · exact hspec.2.1
      · exact hspec.2.2 q hq

theorem mem_buildAntigravityQuotaGroups_iff (models : AntigravityModelsPayload)
    (g : AntigravityQuotaGroup) :
    g ∈ buildAntigravityQuotaGroups models ↔
      buildGroup models claudeGptDef none = some g ∨
      buildGroup models geminiDef none = some g ∨
      buildGroup models gemini3FlashDef none = some g ∨
      buildGroup models geminiImageDef
        ((buildGroup models geminiDef none).bind (fun x => x.resetTime)) = some g := by
  unfold buildAntigravityQuotaGroups
  simp [List.mem_append, Option.mem_toList, Option.mem_def]

theorem consolidation_of_output_iff (models : AntigravityModelsPayload)
    (d : AntigravityQuotaGroupDefinition) (o : Option String)
    (hiff : ∀ g, (g ∈ buildAntigravityQuotaGroups models ∧ g.id = d.id) ↔
      buildGroup models d o = some g) :
    ((∃ g ∈ buildAntigravityQuotaGroups models, g.id = d.id) ↔
      groupFractions models d ≠ []) ∧
    (∀ g ∈ buildAntigravityQuotaGroups models, g.id = d.id →
      g.remainingFraction ∈ groupFractions models d ∧
      ∀ q ∈ groupFractions models d, g.remainingFraction ≤ q) := by
  have hfr_ent : groupFractions models d = [] ↔ groupQuotaEntries models d = [] := by
    unfold groupFractions
    exact List.map_eq_nil_iff
  constructor
  · constructor
    · rintro ⟨g, hg, hid⟩ hfr
      have hsome := (hiff g).mp ⟨hg, hid⟩
      have hnone : buildGroup models d o = none :=
        (buildGroup_eq_none_iff models d o).mpr (hfr_ent.mp hfr)
      rw [hnone] at hsome
      exact Option.noConfusion hsome
    · intro hfr
      have hent : groupQuotaEntries models d ≠ [] := fun he => hfr (hfr_ent.mpr he)
      have hne : buildGroup models d o ≠ none :=
        fun hn => hent ((buildGroup_eq_none_iff models d o).mp hn)
      obtain ⟨g, hg⟩ := Option.ne_none_iff_exists.mp hne
      have hmem := (hiff g).mpr hg.symm
      exact ⟨g, hmem.1, hmem.2⟩
  · intro g hg hid
    exact buildGroup_min models d o g ((hiff g).mp ⟨hg, hid⟩)

theorem output_iff_claude (models : AntigravityModelsPayload) (g : AntigravityQuotaGroup) :
    (g ∈ buildAntigravityQuotaGroups models ∧ g.id = claudeGptDef.id) ↔
      buildGroup models claudeGptDef none = some g := by
  constructor
  · rintro ⟨hg, hid⟩
    rcases (mem_buildAntigravityQuotaGroups_iff models g).mp hg with h | h | h | h
    · exact h
    · exact absurd ((buildGroup_id _ _ _ _ h).symm.trans hid) (by decide)
    · exact absurd ((buildGroup_id _ _ _ _ h).symm.trans hid) (by decide)
    · exact absurd ((buildGroup_id _ _ _ _ h).symm.trans hid) (by decide)
  · intro h
    exact ⟨(mem_buildAntigravityQuotaGroups_iff models g).mpr (Or.inl h),
      buildGroup_id _ _ _ _ h⟩

theorem output_iff_gemini (models : AntigravityModelsPayload) (g : AntigravityQuotaGroup) :
    (g ∈ buildAntigravityQuotaGroups models ∧ g.id = geminiDef.id) ↔
      buildGroup models geminiDef none = some g := by
  constructor
  · rintro ⟨hg, hid⟩
    rcases (mem_buildAntigravityQuotaGroups_iff models g).mp hg with h | h | h | h
    · exact absurd ((buildGroup_id _ _ _ _ h).symm.trans hid) (by decide)
    · exact h
    · exact absurd ((buildGroup_id _ _ _ _ h).symm.trans hid) (by decide)
    · exact absurd ((buildGroup_id _ _ _ _ h).symm.trans hid) (by decide)
  · intro h
    exact ⟨(mem_buildAntigravityQuotaGroups_iff models g).mpr (Or.inr (Or.inl h)),
      buildGroup_id _ _ _ _ h⟩

theorem output_iff_flash (models : AntigravityModelsPayload) (g : AntigravityQuotaGroup) :
    (g ∈ buildAntigravityQuotaGroups models ∧ g.id = gemini3FlashDef.id) ↔
      buildGroup models gemini3FlashDef none = some g := by
  constructor
  · rintro ⟨hg, hid⟩
    rcases (mem_buildAntigravityQuotaGroups_iff models g).mp hg with h | h | h | h
    · exact absurd ((buildGroup_id _ _ _ _ h).symm.trans hid) (by decide)
    · exact absurd ((buildGroup_id _ _ _ _ h).symm.trans hid) (by decide)
    · exact h
    · exact absurd ((buildGroup_id _ _ _ _ h).symm.trans hid) (by decide)
  · intro h
    exact ⟨(mem_buildAntigravityQuotaGroups_iff models g).mpr (Or.inr (Or.inr (Or.inl h))),
      buildGroup_id _ _ _ _ h⟩

theorem output_iff_image (models : AntigravityModelsPayload) (g : AntigravityQuotaGroup) :
    (g ∈ buildAntigravityQuotaGroups models ∧ g.id = geminiImageDef.id) ↔
      buildGroup models geminiImageDef
        ((buildGroup models geminiDef none).bind (fun x => x.resetTime)) = some g := by
  constructor
  · rintro ⟨hg, hid⟩
    rcases (mem_buildAntigravityQuotaGroups_iff models g).mp hg with h | h | h | h
    · exact absurd ((buildGroup_id _ _ _ _ h).symm.trans hid) (by decide)
    · exact absurd ((buildGroup_id _ _ _ _ h).symm.trans hid) (by decide)
    · exact absurd ((buildGroup_id _ _ _ _ h).symm.trans hid) (by decide)
    · exact h
  · intro h
    exact ⟨(mem_buildAntigravityQuotaGroups_iff models g).mpr (Or.inr (Or.inr (Or.inr h))),
      buildGroup_id _ _ _ _ h⟩

/-- C3: for every catalog group, the output of buildAntigravityQuotaGroups
contains a group with that catalog id exactly when some identifier of the
group matched a model entry with a parseable remaining fraction, and the
emitted remaining fraction is the minimum (a member of the matched fractions
that bounds them all from below). -/
theorem antigravity_group_consolidation (models : AntigravityModelsPayload)
    (d : AntigravityQuotaGroupDefinition) (hd : d ∈ ANTIGRAVITY_QUOTA_GROUPS) :
    ((∃ g ∈ buildAntigravityQuotaGroups models, g.id = d.id) ↔
      groupFractions models d ≠ []) ∧
    (∀ g ∈ buildAntigravityQuotaGroups models, g.id = d.id →
      g.remainingFraction ∈ groupFractions models d ∧
      ∀ q ∈ groupFractions models d, g.remainingFraction ≤ q) := by
  rw [ANTIGRAVITY_QUOTA_GROUPS] at hd
  simp only [List.mem_cons, List.not_mem_nil, or_false] at hd
  rcases hd with rfl | rfl | rfl | rfl
  · exact consolidation_of_output_iff models claudeGptDef none (output_iff_claude models)
  · exact consolidation_of_output_iff models geminiDef none (output_iff_gemini models)
  · exact consolidation_of_output_iff models gemini3FlashDef none (output_iff_flash models)
  · exact consolidation_of_output_iff models geminiImageDef _ (output_iff_image models)

/-- C3 witness: on the spec example with Claude/GPT constituents at 4/5 and
3/10, the theorem yields an emitted Claude/GPT group whose remaining
fraction is the minimum 3/10. -/
theorem antigravity_group_consolidation_witness :
    ∃ g ∈ buildAntigravityQuotaGroups sampleClaudeModels, g.id = claudeGptDef.id ∧
      g.remainingFraction = mkRat 3 10 := by
  have h := antigravity_group_consolidation sampleClaudeModels claudeGptDef (by decide)
  have hfr : groupFractions sampleClaudeModels claudeGptDef = [mkRat 4 5, mkRat 3 10] := by
    with_unfolding_all rfl
  obtain ⟨g, hg, hid⟩ := h.1.mpr (by rw [hfr]; simp)
  have hmin := h.2 g hg hid
  rw [hfr] at hmin
  refine ⟨g, hg, hid, ?_⟩
  rcases List.mem_cons.mp hmin.1 with h1 | h1
  · exfalso
    have hle := hmin.2 (mkRat 3 10) (by simp)
    rw [h1] at hle
    exact absurd hle (by decide)
  · simpa using h1

/-
Claim C4.
-/

theorem sampleImageResetModels_output :
    buildAntigravityQuotaGroups sampleImageResetModels =
      [⟨"gemini", "Gemini", ["gemini-3-pro-high"], mkRat 1 2, some "resetA"⟩,
       ⟨"gemini-image", "gemini-3-pro-image", ["gemini-3-pro-image"], mkRat 2 5,
         some "resetA"⟩] := by
  with_unfolding_all rfl

/-- C4 counterexample: in sampleImageResetModels the image group constituent
carries its own reset time resetB, yet the emitted image group carries the
reset time resetA of the Gemini group; the claim that the own constituent
reset time wins over the Gemini fallback fails at this input. -/
theorem antigravity_image_reset_counterexample :
    groupOwnResetTime sampleImageResetModels geminiImageDef = some "resetB" ∧
    (∀ g ∈ buildAntigravityQuotaGroups sampleImageResetModels,
      g.id = "gemini-image" → g.resetTime = some "resetA") ∧
    ¬ (∀ g ∈ buildAntigravityQuotaGroups sampleImageResetModels,
      g.id = "gemini-image" → g.resetTime = some "resetB") := by
  refine ⟨by with_unfolding_all rfl, ?_, ?_⟩
  · rw [sampleImageResetModels_output]
    intro g hg hid
    rcases List.mem_cons.mp hg with rfl | hg
    · simp at hid
    · rcases List.mem_cons.mp hg with rfl | hg
      · rfl
      · simp at hg
  · intro hall
    have himg := hall
      ⟨"gemini-image", "gemini-3-pro-image", ["gemini-3-pro-image"], mkRat 2 5, some "resetA"⟩
      (by rw [sampleImageResetModels_output]; simp) rfl
    simp at himg

/-- C4 amended: every emitted group carries the first truthy reset time
among its own matched constituents, except the image group, which carries
the reset time of the emitted Gemini group whenever that override is
defined, and falls back to its own constituents only when the override is
absent. -/
theorem antigravity_reset_time_amended (models : AntigravityModelsPayload) :
    ∀ g ∈ buildAntigravityQuotaGroups models,
      (g.id = claudeGptDef.id → g.resetTime = groupOwnResetTime models claudeGptDef) ∧
      (g.id = geminiDef.id → g.resetTime = groupOwnResetTime models geminiDef) ∧
      (g.id = gemini3FlashDef.id → g.resetTime = groupOwnResetTime models gemini3FlashDef) ∧
      (g.id = geminiImageDef.id →
        g.resetTime = (((buildGroup models geminiDef none).bind (fun x => x.resetTime)) <|>
          groupOwnResetTime models geminiImageDef)) := by
  intro g hg
  rcases (mem_buildAntigravityQuotaGroups_iff models g).mp hg with h | h | h | h
  · have hid := buildGroup_id _ _ _ _ h
    have hrt := buildGroup_resetTime _ _ _ _ h
    exact ⟨fun _ => by simpa using hrt,
      fun h2 => absurd (hid.symm.trans h2) (by decide),
      fun h2 => absurd (hid.symm.trans h2) (by decide),
      fun h2 => absurd (hid.symm.trans h2) (by decide)⟩
  · have hid := buildGroup_id _ _ _ _ h
    have hrt := buildGroup_resetTime _ _ _ _ h
    exact ⟨fun h2 => absurd (hid.symm.trans h2) (by decide),
      fun _ => by simpa using hrt,
      fun h2 => absurd (hid.symm.trans h2) (by decide),
      fun h2 => absurd (hid.symm.trans h2) (by decide)⟩
  · have hid := buildGroup_id _ _ _ _ h
    have hrt := buildGroup_resetTime _ _ _ _ h
    exact ⟨fun h2 => absurd (hid.symm.trans h2) (by decide),
      fun h2 => absurd (hid.symm.trans h2) (by decide),
      fun _ => by simpa using hrt,
      fun h2 => absurd (hid.symm.trans h2) (by decide)⟩
  · have hid := buildGroup_id _ _ _ _ h
    have hrt := buildGroup_resetTime _ _ _ _ h
    exact ⟨fun h2 => absurd (hid.symm.trans h2) (by decide),
      fun h2 => absurd (hid.symm.trans h2) (by decide),
      fun h2 => absurd (hid.symm.trans h2) (by decide),
      fun _ => hrt⟩

/-- C4 amended witness: the theorem applied to the emitted image group of
the counterexample input; the override of the emitted Gemini group wins. -/
theorem antigravity_reset_time_amended_witness :
    (⟨"gemini-image", "gemini-3-pro-image", ["gemini-3-pro-image"], mkRat 2 5,
      some "resetA"⟩ : AntigravityQuotaGroup).resetTime =
      (((buildGroup sampleImageResetModels geminiDef none).bind (fun x => x.resetTime)) <|>
        groupOwnResetTime sampleImageResetModels geminiImageDef) := by
  have h := antigravity_reset_time_amended sampleImageResetModels
    ⟨"gemini-image", "gemini-3-pro-image", ["gemini-3-pro-image"], mkRat 2 5, some "resetA"⟩
    (by rw [sampleImageResetModels_output]; simp)
  exact h.2.2.2 rfl

/-
Claim C5.
-/

theorem fetchGo_all_non2xx (outcomes : List ApiOutcome) :
    ∀ lastError : String, (∀ o ∈ outcomes, isHttp2xx o = false) →
      ∃ msg, fetchGo outcomes lastError false = .error msg := by
  induction outcomes with
  | nil =>
    intro le _
    exact ⟨if le = "" then "common.unknown_error" else le, by simp [fetchGo]⟩
  | cons o rest ih =>
    intro le h
    cases o with
    | thrown msg => exact ih msg (fun x hx => h x (by simp [hx]))
    | result r =>
      have h2 := h (.result r) (by simp)
      simp only [isHttp2xx, Bool.and_eq_false_iff, decide_eq_false_iff_not] at h2
      have hcond : r.statusCode < 200 ∨ 300 ≤ r.statusCode := by omega
      rw [show fetchGo (.result r :: rest) le false = fetchGo rest r.errorMessage false from by
        simp [fetchGo, hcond]]
      exact ih _ (fun x hx => h x (by simp [hx]))

theorem fetchGo_all_none_true (outcomes : List ApiOutcome) :
    ∀ lastError : String, (∀ o ∈ outcomes, outcomeGroups o = none) →
      fetchGo outcomes lastError true = .ok [] := by
  induction outcomes with
  | nil => intro le _; simp [fetchGo]
  | cons o rest ih =>
    intro le h
    have ho := h o (by simp)
    have hr : ∀ x ∈ rest, outcomeGroups x = none := fun x hx => h x (by simp [hx])
    cases o with
    | thrown msg => exact ih msg hr
    | result r =>
      by_cases hcond : r.statusCode < 200 ∨ 300 ≤ r.statusCode
      · rw [show fetchGo (.result r :: rest) le true = fetchGo rest r.errorMessage true from by
          simp [fetchGo, hcond]]
        exact ih _ hr
      · simp only [outcomeGroups] at ho
        rw [if_neg hcond] at ho
        cases hm : r.models with
        | none =>
          rw [show fetchGo (.result r :: rest) le true
            = fetchGo rest "antigravity_quota.empty_models" true from by
              simp [fetchGo, hcond, hm]]
          exact ih _ hr
        | some m =>
          rw [hm] at ho
          have hgs : buildAntigravityQuotaGroups m = [] := by
            by_contra hne
            simp [hne] at ho
          rw [show fetchGo (.result r :: rest) le true
            = fetchGo rest "antigravity_quota.empty_models" true from by
              simp [fetchGo, hcond, hm, hgs]]
          exact ih _ hr

theorem fetchGo_all_none_false (outcomes : List ApiOutcome) :
    ∀ lastError : String, (∀ o ∈ outcomes, outcomeGroups o = none) →
      (∃ o ∈ outcomes, isHttp2xx o = true) →
      fetchGo outcomes lastError false = .ok [] := by
  induction outcomes with
  | nil =>
    rintro le _ ⟨o, ho, _⟩
    simp at ho
  | cons o rest ih =>
    intro le h hex
    have hr : ∀ x ∈ rest, outcomeGroups x = none := fun x hx => h x (by simp [hx])
    cases o with
    | thrown msg =>
      obtain ⟨x, hx, hxt⟩ := hex
      rcases List.mem_cons.mp hx with rfl | hx
      · simp [isHttp2xx] at hxt
      · exact ih msg hr ⟨x, hx, hxt⟩
    | result r =>
      by_cases hcond : r.statusCode < 200 ∨ 300 ≤ r.statusCode
      · obtain ⟨x, hx, hxt⟩ := hex
        rcases List.mem_cons.mp hx with rfl | hx
        · simp only [isHttp2xx, Bool.and_eq_true, decide_eq_true_eq] at hxt
          omega
        · rw [show fetchGo (.result r :: rest) le false
            = fetchGo rest r.errorMessage false from by simp [fetchGo, hcond]]
          exact ih _ hr ⟨x, hx, hxt⟩
      · have ho := h (.result r) (by simp)
        simp only [outcomeGroups] at ho
        rw [if_neg hcond] at ho
        cases hm : r.models with
        | none =>
          rw [show fetchGo (.result r :: rest) le false
            = fetchGo rest "antigravity_quota.empty_models" true from by
              simp [fetchGo, hcond, hm]]
          exact fetchGo_all_none_true rest _ hr
        | some m =>
          rw [hm] at ho
          have hgs : buildAntigravityQuotaGroups m = [] := by
            by_contra hne
            simp [hne] at ho
          rw [show fetchGo (.result r :: rest) le false
            = fetchGo rest "antigravity_quota.empty_models" true from by
              simp [fetchGo, hcond, hm, hgs]]
          exact fetchGo_all_none_true rest _ hr

theorem fetchGo_first_usable (pre : List ApiOutcome) :
    ∀ (o : ApiOutcome) (post : List ApiOutcome) (gs : List AntigravityQuotaGroup)
      (lastError : String) (flag : Bool),
      (∀ p ∈ pre, outcomeGroups p = none) → outcomeGroups o = some gs →
      fetchGo (pre ++ o :: post) lastError flag = .ok gs := by
  induction pre with
  | nil =>
    intro o post gs le flag _ ho
    cases o with
    | thrown msg => simp [outcomeGroups] at ho
    | result r =>
      simp only [outcomeGroups] at ho
      by_cases hcond : r.statusCode < 200 ∨ 300 ≤ r.statusCode
      · rw [if_pos hcond] at ho
        exact absurd ho (by simp)
      · rw [if_neg hcond] at ho
        cases hm : r.models with
        | none =>
          rw [hm] at ho
          exact absurd ho (by simp)
        | some m =>
          rw [hm] at ho
          have ho2 : (if buildAntigravityQuotaGroups m = [] then none
              else some (buildAntigravityQuotaGroups m)) = some gs := ho
          by_cases hgs : buildAntigravityQuotaGroups m = []
          · rw [if_pos hgs] at ho2
            exact absurd ho2 (by simp)
          · rw [if_neg hgs, Option.some.injEq] at ho2
            subst ho2
            show fetchGo (.result r :: post) le flag = .ok _
            simp [fetchGo, hcond, hm, hgs]
  | cons p pre ih =>
    intro o post gs le flag hpre ho
    have hp := hpre p (by simp)
    have hpre2 : ∀ x ∈ pre, outcomeGroups x = none := fun x hx => hpre x (by simp [hx])
    cases p with
    | thrown msg => exact ih o post gs msg flag hpre2 ho
    | result r =>
      by_cases hcond : r.statusCode < 200 ∨ 300 ≤ r.statusCode
      · rw [show fetchGo ((.result r :: pre) ++ o :: post) le flag
          = fetchGo (pre ++ o :: post) r.errorMessage flag from by simp [fetchGo, hcond]]
        exact ih o post gs _ flag hpre2 ho
      · simp only [outcomeGroups] at hp
        rw [if_neg hcond] at hp
        cases hm : r.models with
        | none =>
          rw [show fetchGo ((.result r :: pre) ++ o :: post) le flag
            = fetchGo (pre ++ o :: post) "antigravity_quota.empty_models" true from by
              simp [fetchGo, hcond, hm]]
          exact ih o post gs _ true hpre2 ho
        | some m =>
          rw [hm] at hp
          have hgs : buildAntigravityQuotaGroups m = [] := by
            by_contra hne
            simp [hne] at hp
          rw [show fetchGo ((.result r :: pre) ++ o :: post) le flag
            = fetchGo (pre ++ o :: post) "antigravity_quota.empty_models" true from by
              simp [fetchGo, hcond, hm, hgs]]
          exact ih o post gs _ true hpre2 ho

/-- C5: fetchAntigravityQuota tries the candidate URLs in sequence; a thrown
request, a non-2xx response, and a 2xx response whose model map is missing,
malformed or consolidates into no groups are soft failures that fall
through to the next URL; the call returns the groups of the first outcome
with usable groups, returns the empty group list when at least one 2xx
response arrived but no outcome had usable groups, and surfaces an error
only when no outcome at all was a 2xx response. -/
theorem fetchAntigravityQuota_spec (outcomes : List ApiOutcome) :
    ((∀ o ∈ outcomes, isHttp2xx o = false) →
      ∃ msg, fetchAntigravityQuota outcomes = .error msg) ∧
    ((∃ o ∈ outcomes, isHttp2xx o = true) → (∀ o ∈ outcomes, outcomeGroups o = none) →
      fetchAntigravityQuota outcomes = .ok []) ∧
    (∀ (pre : List ApiOutcome) (o : ApiOutcome) (post : List ApiOutcome)
        (gs : List AntigravityQuotaGroup),
      outcomes = pre ++ o :: post →
      (∀ p ∈ pre, outcomeGroups p = none) → outcomeGroups o = some gs →
      fetchAntigravityQuota outcomes = .ok gs) :=
  ⟨fun h => fetchGo_all_non2xx outcomes "" h,
    fun hex h => fetchGo_all_none_false outcomes "" h hex,
    fun pre o post gs heq hpre ho => by
      rw [fetchAntigravityQuota, heq]
      exact fetchGo_first_usable pre o post gs "" false hpre ho⟩

/-- C5 witness: a thrown request and a 404 fall through, and the first 2xx
response with a usable models map yields its consolidated groups. -/
theorem fetchAntigravityQuota_spec_witness :
    fetchAntigravityQuota sampleOutcomes =
      .ok [⟨"gemini-3-flash", "Gemini 3 Flash", ["gemini-3-flash"], mkRat 1 4,
        some "resetF"⟩] := by
  exact (fetchAntigravityQuota_spec sampleOutcomes).2.2
    [.thrown "boom", .result ⟨404, none, "HTTP 404"⟩]
    (.result ⟨200, some sampleFlashModels, ""⟩) []
    [⟨"gemini-3-flash", "Gemini 3 Flash", ["gemini-3-flash"], mkRat 1 4, some "resetF"⟩]
    rfl
    (by intro p hp
        rcases List.mem_cons.mp hp with rfl | hp
        · rfl
        · rcases List.mem_cons.mp hp with rfl | hp
          · with_unfolding_all rfl
          · simp at hp)
    (by with_unfolding_all rfl)

end CPMC
